import Mathlib

set_option autoImplicit false

/-!
Verification development for the Tinzenite `channel` package: a shallow
embedding of the file-transfer pipeline (transfer objects, the per-peer send
queues, send-admission tracking and the coordinator loop of `run`) together
with proofs about its behaviour.

Modelling conventions:
* Go maps (`map[uint32]*transfer`, `map[string]*sendTransfer`, …) are embedded
  as association lists with unique keys; `lookupK`, `insertK` and `eraseK`
  mirror map read, write and `delete`.
* `uint32`/`uint64` values are `Nat`; the arithmetic in the embedded handlers
  is wrap-free in the modelled range (all claims stay far below `2^64`).
* Pointer-mutating methods become functions returning the updated value.
* Externally visible actions (calls into the tox engine, file I/O, the
  application callbacks) are recorded as an `Effect` trace; results reported
  by the outside world (`FileSend` errors, file-read errors, address lookup
  results, I/O errors of `Sync`/`Close`) enter as explicit oracle arguments.
* An `*os.File` handle is identified by the path of the file it was opened on.
-/

namespace TinzeniteChannel

/-! ## Association-list maps (the embedding of Go maps) -/

section KV

variable {K V : Type} [DecidableEq K]

/-- Map read `m[k]` (`v, exists := m[k]`): the value at the first matching key. -/
def lookupK : List (K × V) → K → Option V
  | [], _ => none
  | (k, v) :: rest, a => if k = a then some v else lookupK rest a

/-- Map write `m[k] = v`: replace the entry in place, or append a new one. -/
def insertK : List (K × V) → K → V → List (K × V)
  | [], a, b => [(a, b)]
  | (k, v) :: rest, a, b => if k = a then (a, b) :: rest else (k, v) :: insertK rest a b

/-- Map `delete(m, k)`: remove the entry (all entries) with the given key. -/
def eraseK : List (K × V) → K → List (K × V)
  | [], _ => []
  | (k, v) :: rest, a => if k = a then eraseK rest a else (k, v) :: eraseK rest a

/-- Number of entries stored under a key. For a well-formed map this is `≤ 1`. -/
def countK (l : List (K × V)) (a : K) : Nat :=
  (l.filter fun kv => kv.1 = a).length

/-- Well-formedness of the map embedding: keys occur at most once. -/
def NodupKeys (l : List (K × V)) : Prop := (l.map Prod.fst).Nodup

@[simp] theorem lookupK_nil (a : K) : lookupK ([] : List (K × V)) a = none := rfl

theorem lookupK_insertK_self (l : List (K × V)) (a : K) (b : V) :
    lookupK (insertK l a b) a = some b := by
  induction l with
  | nil => simp [insertK, lookupK]
  | cons kv rest ih =>
    by_cases h : kv.1 = a
    · simp [insertK, lookupK, h]
    · simp [insertK, lookupK, h, ih]

theorem lookupK_insertK_ne (l : List (K × V)) (a c : K) (b : V) (h : c ≠ a) :
    lookupK (insertK l a b) c = lookupK l c := by
  have hac : a ≠ c := Ne.symm h
  induction l with
  | nil => simp [insertK, lookupK, hac]
  | cons kv rest ih =>
    by_cases hk : kv.1 = a
    · have hkc : kv.1 ≠ c := fun hh => hac (hk ▸ hh)
      simp [insertK, lookupK, hk, hac, hkc]
    · by_cases hc : kv.1 = c
      · simp [insertK, lookupK, hk, hc, h]
      · simp [insertK, lookupK, hk, hc, ih]

theorem lookupK_eraseK_self (l : List (K × V)) (a : K) :
    lookupK (eraseK l a) a = none := by
  induction l with
  | nil => simp [eraseK]
  | cons kv rest ih =>
    by_cases h : kv.1 = a
    · simp [eraseK, h, ih]
    · simp [eraseK, lookupK, h, ih]

theorem lookupK_eraseK_ne (l : List (K × V)) (a c : K) (h : c ≠ a) :
    lookupK (eraseK l a) c = lookupK l c := by
  have hac : a ≠ c := Ne.symm h
  induction l with
  | nil => simp [eraseK]
  | cons kv rest ih =>
    by_cases hk : kv.1 = a
    · have hc : kv.1 ≠ c := fun hh => h (hh ▸ hk)
      simp [eraseK, lookupK, hk, hc, hac, ih]
    · by_cases hc : kv.1 = c
      · simp [eraseK, lookupK, hk, hc, h]
      · simp [eraseK, lookupK, hk, hc, ih]

theorem mem_keys_insertK (l : List (K × V)) (a c : K) (b : V)
    (h : c ∈ (insertK l a b).map Prod.fst) : c ∈ l.map Prod.fst ∨ c = a := by
  induction l with
  | nil =>
    simp [insertK] at h
    exact Or.inr h
  | cons kv rest ih =>
    by_cases hk : kv.1 = a
    · rw [show insertK (kv :: rest) a b = (a, b) :: rest by simp [insertK, hk]] at h
      rcases List.mem_cons.1 h with h | h
      · exact Or.inr h
      · exact Or.inl (List.mem_cons.2 (Or.inr h))
    · rw [show insertK (kv :: rest) a b = kv :: insertK rest a b by simp [insertK, hk]] at h
      rcases List.mem_cons.1 h with h | h
      · exact Or.inl (List.mem_cons.2 (Or.inl h))
      · rcases ih h with h' | h'
        · exact Or.inl (List.mem_cons.2 (Or.inr h'))
        · exact Or.inr h'

theorem nodupKeys_insertK (l : List (K × V)) (a : K) (b : V)
    (h : NodupKeys l) : NodupKeys (insertK l a b) := by
  induction l with
  | nil => simp [insertK, NodupKeys]
  | cons kv rest ih =>
    have h1 : kv.1 ∉ rest.map Prod.fst := (List.nodup_cons.1 h).1
    have h2 : NodupKeys rest := (List.nodup_cons.1 h).2
    by_cases hk : kv.1 = a
    · rw [show insertK (kv :: rest) a b = (a, b) :: rest from by simp [insertK, hk]]
      have : a ∉ rest.map Prod.fst := hk ▸ h1
      exact List.nodup_cons.2 ⟨this, h2⟩
    · rw [show insertK (kv :: rest) a b = kv :: insertK rest a b from by simp [insertK, hk]]
      unfold NodupKeys
      rw [List.map_cons]
      refine List.nodup_cons.2 ⟨?_, ih h2⟩
      intro hc
      rcases mem_keys_insertK rest a kv.1 b hc with h' | h'
      · exact h1 h'
      · exact hk h'

theorem keys_eraseK (l : List (K × V)) (a : K) :
    (eraseK l a).map Prod.fst = (l.map Prod.fst).filter (fun k => k ≠ a) := by
  induction l with
  | nil => simp [eraseK]
  | cons kv rest ih =>
    by_cases h : kv.1 = a
    · simp [eraseK, h, ih]
    · simp [eraseK, h, ih]

theorem nodupKeys_eraseK (l : List (K × V)) (a : K)
    (h : NodupKeys l) : NodupKeys (eraseK l a) := by
  unfold NodupKeys at h ⊢
  rw [keys_eraseK]
  exact h.filter _

theorem countK_le_one (l : List (K × V)) (a : K) (h : NodupKeys l) :
    countK l a ≤ 1 := by
  induction l with
  | nil => simp [countK]
  | cons kv rest ih =>
    have h1 : kv.1 ∉ rest.map Prod.fst := (List.nodup_cons.1 h).1
    have h2 : NodupKeys rest := (List.nodup_cons.1 h).2
    by_cases hk : kv.1 = a
    · have hnone : ∀ kv' ∈ rest, ¬ kv'.1 = a := by
        intro kv' hmem heq
        exact h1 (by rw [hk, ← heq]; exact List.mem_map_of_mem Prod.fst hmem)
      have hrest : rest.filter (fun kv' => kv'.1 = a) = [] := by
        apply List.filter_eq_nil_iff.2
        intro kv' hmem
        simpa using hnone kv' hmem
      simp [countK, hk, hrest]
    · have := ih h2
      simpa [countK, hk] using this

theorem lookupK_of_mem_nodup (l : List (K × V)) (kv : K × V)
    (hmem : kv ∈ l) (h : NodupKeys l) : lookupK l kv.1 = some kv.2 := by
  induction l with
  | nil => simp at hmem
  | cons kv' rest ih =>
    have h1 : kv'.1 ∉ rest.map Prod.fst := (List.nodup_cons.1 h).1
    have h2 : NodupKeys rest := (List.nodup_cons.1 h).2
    rcases List.mem_cons.1 hmem with heq | hmem'
    · simp [lookupK, heq]
    · have hne : kv'.1 ≠ kv.1 := by
        intro hh
        exact h1 (hh ▸ List.mem_map_of_mem Prod.fst hmem')
      simp [lookupK, hne]
      exact ih hmem' h2

theorem eraseK_eq_filter (l : List (K × V)) (a : K) :
    eraseK l a = l.filter (fun kv => kv.1 ≠ a) := by
  induction l with
  | nil => simp [eraseK]
  | cons kv rest ih =>
    by_cases h : kv.1 = a
    · simp [eraseK, h, ih]
    · simp [eraseK, h, ih]

end KV

/-! ## Transfer states (src/unnamed/part_002, `State`) -/

/-- Enumeration for notifying callbacks of transfer states. -/
inductive State where
  | StNone
  | StSuccess
  | StFailed
  | StCanceled
  | StTimeout
deriving DecidableEq

/-! ## The transfer object (src/transfer.go) -/

/-- The `transfer` struct. The `*os.File` field is identified by the path of the
file (`file.Name()`); `doneCallback func(status State)` is represented by
whether it is non-nil (`hasCallback`), its invocation appearing on the effect
trace.
-/
structure Transfer where
  path : String
  name : String
  friend : Nat
  size : Nat
  progress : Nat
  hasCallback : Bool
  isDone : Bool
deriving DecidableEq

/-- Function `createTransfer` builds a transfer object (src/transfer.go). -/
def createTransfer (path name : String) (friendNumber : Nat) (size : Nat)
    (hasCallback : Bool) : Transfer :=
  { path := path, name := name, friend := friendNumber, size := size,
    progress := 0, hasCallback := hasCallback, isDone := false }

/-- Method `SetProgress` (src/transfer.go). -/
def Transfer.setProgress (t : Transfer) (value : Nat) : Transfer :=
  { t with progress := value }

/-! ## Observable actions

Calls out of the package — engine primitives, file I/O and the application
callbacks — are recorded on a trace. `syncOk`/`closeOk` carry the I/O result
the outside world reported for `file.Sync()`/`file.Close()` (the code only
logs them).
-/

inductive Effect where
  | fileSync (path : String) (syncOk : Bool)
  | fileClose (path : String) (closeOk : Bool)
  | callback (path : String) (st : State)
  | fileSend (friend : Nat) (size : Nat) (name : String)
  | fileControlCancel (friend fileNumber : Nat)
  | fileControlResume (friend fileNumber : Nat)
  | readFile (path : String) (position length : Nat)
  | writeFile (path : String) (position length : Nat)
  | sendChunk (friend fileNumber position length : Nat)
  | onFileCanceled (address path : String)
  | onFileReceived (address path name : String)
  | onConnected (address : String)
  | killTox
deriving DecidableEq

/-- Method `Close` of a transfer (src/transfer.go lines 130-151): if already done it only
logs a warning and returns; otherwise it flags `isDone`, syncs and closes the
file (errors are only logged), then executes the callback if one exists.
-/
def Transfer.close (t : Transfer) (state : State) (syncOk closeOk : Bool) :
    Transfer × List Effect :=
  if t.isDone then (t, [])
  else
    ({ t with isDone := true },
      [.fileSync t.path syncOk, .fileClose t.path closeOk]
        ++ (if t.hasCallback then [.callback t.path state] else []))

/-! ## The exact binary32 model for `Percentage`

`Percentage` (src/transfer.go lines 118-125) computes
`int(100.0 * (float32(t.progress) / float32(t.size)))`. Go's `float32` is an
IEEE-754 binary32 with round-to-nearest, ties-to-even; in the normal range (no
overflow and no subnormals, which covers every value these expressions can
take for `uint64` inputs) a binary32 value is exactly `m * 2^(e-23)` with
`2^23 ≤ m < 2^24`. We model such a value as the pair `(m, e)` (with `m = 0`
for zero) and implement the correctly-rounded conversion, division and
multiplication on it; every number involved is an integer, so the model is
exact.
-/

/-- Binary length of a natural number, fuel-structural so the kernel can
evaluate it (`blen fuel n = ⌈log2 (n+1)⌉` for `n < 2^fuel`). -/
def blen : Nat → Nat → Nat
  | 0, _ => 0
  | fuel + 1, n => if n = 0 then 0 else blen fuel (n / 2) + 1

/-- A nonnegative binary32 value: significand times `2^(exp - 23)`. -/
structure F32 where
  sig : Nat
  exp : Int
deriving DecidableEq

/-- The fuel used for bit-length computations; ample for every value the
embedded expressions can produce. -/
def f32fuel : Nat := 300

/-- Correctly round the exact positive rational `num / den` to binary32
(round-to-nearest, ties-to-even), assuming no overflow/underflow.
-/
def f32roundFrac (num den : Nat) : F32 :=
  if num = 0 then ⟨0, 0⟩
  else
    -- e0: the unique integer with 2^e0 ≤ num/den < 2^(e0+1)
    let t : Int := (blen f32fuel num : Int) - (blen f32fuel den : Int)
    let geT : Bool :=       -- decide num/den ≥ 2^t
      if 0 ≤ t then den * 2 ^ t.toNat ≤ num else den ≤ num * 2 ^ (-t).toNat
    let e0 : Int := if geT then t else t - 1
    -- scale so the significand lands in [2^23, 2^24)
    let shift : Int := 23 - e0
    let num' := if 0 ≤ shift then num * 2 ^ shift.toNat else num
    let den' := if 0 ≤ shift then den else den * 2 ^ (-shift).toNat
    let q := num' / den'
    let r := num' % den'
    let m := if 2 * r < den' then q
             else if den' < 2 * r then q + 1
             else if q % 2 = 0 then q else q + 1
    ⟨m, e0⟩

/-- The exact positive fraction `(num, den)` represented by a binary32 value. -/
def F32.frac (x : F32) : Nat × Nat :=
  if 0 ≤ x.exp - 23 then (x.sig * 2 ^ (x.exp - 23).toNat, 1)
  else (x.sig, 2 ^ (23 - x.exp).toNat)

/-- Conversion `float32(n)` for a `uint64` value `n` (round-to-nearest, ties-to-even). -/
def f32ofNat (n : Nat) : F32 := f32roundFrac n 1

/-- binary32 division (correctly rounded; arguments nonnegative, divisor
nonzero). -/
def f32div (a b : F32) : F32 :=
  if a.sig = 0 then ⟨0, 0⟩
  else
    let fa := a.frac
    let fb := b.frac
    f32roundFrac (fa.1 * fb.2) (fa.2 * fb.1)

/-- binary32 multiplication (correctly rounded; arguments nonnegative). -/
def f32mul (a b : F32) : F32 :=
  if a.sig = 0 ∨ b.sig = 0 then ⟨0, 0⟩
  else
    let fa := a.frac
    let fb := b.frac
    f32roundFrac (fa.1 * fb.1) (fa.2 * fb.2)

/-- Conversion `int(x)` for a nonnegative binary32 value: truncation toward zero. -/
def f32trunc (x : F32) : Nat :=
  let f := x.frac
  f.1 / f.2

/-- Method `Percentage` (src/transfer.go lines 118-125): returns 0 when progress or size
is 0, otherwise `int(100.0 * (float32(t.progress) / float32(t.size)))`.
-/
def Transfer.percentage (t : Transfer) : Nat :=
  if t.progress = 0 ∨ t.size = 0 then 0
  else f32trunc (f32mul (f32ofNat 100) (f32div (f32ofNat t.progress) (f32ofNat t.size)))

/-! ## Per-peer send queues (src/unnamed/part_006)

`queues` maps a peer address to a `queue`; a `queue` holds its entries in a
slice. A Go `nil` transfer pointer is `Option.none`.
-/

/-- The `queues` collection: `heap map[string]*queue`. -/
structure Queues where
  heap : List (String × List Transfer)
deriving DecidableEq

/-- Function `buildQueues` (src/unnamed/part_006). -/
def buildQueues : Queues := ⟨[]⟩

/-- Method `queues.add` (src/unnamed/part_006 lines 14-26): nil transfers are not
added; the queue for the address is built lazily; the transfer is appended. -/
def Queues.add (qs : Queues) (address : String) (t : Option Transfer) : Queues :=
  match t with
  | none => qs
  | some tr =>
    match lookupK qs.heap address with
    | none => ⟨insertK qs.heap address [tr]⟩
    | some q => ⟨insertK qs.heap address (q ++ [tr])⟩

/-- Method `queues.get` (src/unnamed/part_006 lines 28-34) combined with `queue.get`
(lines 53-69): `nil` if no queue exists or it is empty, otherwise the oldest
entry, which is removed. -/
def Queues.get (qs : Queues) (address : String) : Option Transfer × Queues :=
  match lookupK qs.heap address with
  | none => (none, qs)
  | some [] => (none, qs)
  | some (t :: rest) => (some t, ⟨insertK qs.heap address rest⟩)

/-- The entries currently queued for an address (empty for a missing queue). -/
def Queues.entriesAt (qs : Queues) (address : String) : List Transfer :=
  (lookupK qs.heap address).getD []

/-- Repeatedly `get` from one address, collecting the transfers that come out,
stopping at the empty signal. -/
def Queues.drain (qs : Queues) (address : String) : Nat → List Transfer
  | 0 => []
  | n + 1 =>
    match qs.get address with
    | (none, _) => []
    | (some t, qs') => t :: qs'.drain address n

/-! ## The send-admission record (src/sendtransfer.go) -/

/-- The `sendTransfer` struct; `began` is the `time.Now()` at `buildSendTransfer`. -/
structure SendTransfer where
  started : Bool
  began : Nat
  fileNumber : Nat
deriving DecidableEq

/-- Function `buildSendTransfer` (src/sendtransfer.go): primed values, timeout runs
from now. -/
def buildSendTransfer (now fileNumber : Nat) : SendTransfer :=
  { started := false, began := now, fileNumber := fileNumber }

/-- Method `isStale` (src/sendtransfer.go lines 26-28):
`time.Since(st.began) > sendTimeout && !st.started`. Time is in abstract units;
the `sendTimeout` constant is passed explicitly. -/
def SendTransfer.isStale (st : SendTransfer) (sendTimeout now : Nat) : Bool :=
  decide (sendTimeout < now - st.began) && !st.started

/-! ## The channel state owned by the coordinator (part_005, public.go)

`transfers` is the registry `map[uint32]*transfer`; `sendActive` is
`map[string]*sendTransfer`; `sending` maps each peer address to the buffer of
its ready channel (the per-peer FIFO of pending outbound transfers, oldest
first); `cbs` records whether application callbacks were registered.
-/

structure ChanState where
  transfers : List (Nat × Transfer)
  sendActive : List (String × SendTransfer)
  sending : List (String × List Transfer)
  cbs : Bool
deriving DecidableEq

/-- The state right after `Create`: empty registry, no admissions, no queues. -/
def initChan (cbs : Bool) : ChanState :=
  { transfers := [], sendActive := [], sending := [], cbs := cbs }

/-- Helper `closeTransfer` (src/unnamed/part_005 lines 97-105): close the registered
transfer and delete it from the registry; a missing entry only logs. -/
def closeTransfer (s : ChanState) (fileNumber : Nat) (reason : State)
    (syncOk closeOk : Bool) : ChanState × List Effect :=
  match lookupK s.transfers fileNumber with
  | none => (s, [])
  | some tran =>
    ({ s with transfers := eraseK s.transfers fileNumber },
      (tran.close reason syncOk closeOk).2)

/-- Method `triggerSend` (src/unnamed/part_005 lines 133-145): call `FileSend`; on
error close this one transfer as failed; on success record the admission and
register the transfer under the returned file number. `fsResult` is the
engine's answer (`none` = error), `now` the admission time. -/
def triggerSend (s : ChanState) (address : String) (tran : Transfer)
    (now : Nat) (fsResult : Option Nat) (syncOk closeOk : Bool) :
    ChanState × List Effect :=
  match fsResult with
  | none =>
    (s, .fileSend tran.friend tran.size tran.name
          :: (tran.close .StFailed syncOk closeOk).2)
  | some fileNumber =>
    ({ s with
        sendActive := insertK s.sendActive address (buildSendTransfer now fileNumber),
        transfers := insertK s.transfers fileNumber tran },
      [.fileSend tran.friend tran.size tran.name])

/-- The non-blocking receive from a peer's ready channel in the send tick
(`case t := <-ready`). -/
def dequeueReady (s : ChanState) (address : String) :
    Option Transfer × ChanState :=
  match lookupK s.sending address with
  | none => (none, s)
  | some [] => (none, s)
  | some (t :: rest) =>
    (some t, { s with sending := insertK s.sending address rest })

/-- One iteration of the send-tick loop body for one address
(src/unnamed/part_005 lines 67-88): if no transfer is active for the address,
try to start the next ready one; otherwise check the active admission for
staleness and, if stale, force-close it as timed out and clear the admission. -/
def sendTickPeer (sendTimeout now : Nat) (fs : String → Option Nat)
    (io : String → Bool × Bool) (s : ChanState) (address : String) :
    ChanState × List Effect :=
  match lookupK s.sendActive address with
  | none =>
    match dequeueReady s address with
    | (none, _) => (s, [])
    | (some t, s') =>
      triggerSend s' address t now (fs address) (io address).1 (io address).2
  | some sendTran =>
    if sendTran.isStale sendTimeout now then
      let sc := closeTransfer s sendTran.fileNumber .StTimeout
        (io address).1 (io address).2
      ({ sc.1 with sendActive := eraseK sc.1.sendActive address }, sc.2)
    else (s, [])

/-- The send-tick loop over a list of addresses, threading the state. -/
def sendTickGo (sendTimeout now : Nat) (fs : String → Option Nat)
    (io : String → Bool × Bool) : List String → ChanState → ChanState × List Effect
  | [], s => (s, [])
  | a :: rest, s =>
    let p := sendTickPeer sendTimeout now fs io s a
    let q := sendTickGo sendTimeout now fs io rest p.1
    (q.1, p.2 ++ q.2)

/-- The whole `sendTicker` case of `run` (src/unnamed/part_005 lines 65-88):
the loop body for every sending candidate. -/
def sendTick (sendTimeout now : Nat) (fs : String → Option Nat)
    (io : String → Bool × Bool) (s : ChanState) : ChanState × List Effect :=
  sendTickGo sendTimeout now fs io (s.sending.map Prod.fst) s

/-- The close-and-notify loop of `onFriendConnectionStatusChanges` over the
collected `canceled` entries. -/
def closeCanceledGo (address : String) (io : Nat → Bool × Bool) (cbs : Bool) :
    List (Nat × Transfer) → ChanState → ChanState × List Effect
  | [], s => (s, [])
  | kt :: rest, s =>
    let c := closeTransfer s kt.1 .StFailed (io kt.1).1 (io kt.1).2
    let e1 := c.2 ++ (if cbs then [.onFileCanceled address kt.2.path] else [])
    let q := closeCanceledGo address io cbs rest c.1
    (q.1, e1 ++ q.2)

/-- Callback `onFriendConnectionStatusChanges` (src/unnamed/part_005 lines 194-233):
on any connectivity change, collect every transfer of that friend, close each
as failed (notifying `OnFileCanceled`), clear the peer's `sendActive` entry,
and if the new status is online additionally notify `OnConnected`. `address`
is the engine's answer to `addressOf` (the zero value on error). -/
def onFriendConnStatus (s : ChanState) (friendnumber : Nat) (address : String)
    (online : Bool) (io : Nat → Bool × Bool) : ChanState × List Effect :=
  let canceled := s.transfers.filter fun kt => kt.2.friend = friendnumber
  let c := closeCanceledGo address io s.cbs canceled s
  let s2 := { c.1 with sendActive := eraseK c.1.sendActive address }
  (s2, c.2 ++ (if online then (if s.cbs then [.onConnected address] else []) else []))

/-- The `TOX_FILE_CONTROL_CANCEL` branch of `onFileRecvControl`
(src/unnamed/part_005 lines 238-267): close and remove the transfer, then —
when the friend's address resolves — clear the peer's `sendActive` entry and
notify `OnFileCanceled`. `addr` is the `addressOf` result (`none` = error). -/
def onFileRecvControlCancel (s : ChanState) (friendnumber fileNumber : Nat)
    (addr : Option String) (syncOk closeOk : Bool) : ChanState × List Effect :=
  match lookupK s.transfers fileNumber with
  | none => (s, [])
  | some tran =>
    let c := closeTransfer s fileNumber .StCanceled syncOk closeOk
    match addr with
    | none => (c.1, c.2)
    | some address =>
      ({ c.1 with sendActive := eraseK c.1.sendActive address },
        c.2 ++ (if s.cbs then [.onFileCanceled address tran.path] else []))

/-- Callback `onFileRecv` (src/unnamed/part_005 lines 273-312): ignore non-data
transfers (cancelling them); require callbacks; ask `OnAllowFile`; when
accepted, create the file and register a fresh inbound transfer, resuming the
engine's transfer. -/
def onFileRecv (s : ChanState) (friendnumber fileNumber : Nat) (filesize : Nat)
    (isData : Bool) (address : String) (accept : Bool) (path filename : String) :
    ChanState × List Effect :=
  if ¬ isData then (s, [.fileControlCancel friendnumber fileNumber])
  else if ¬ s.cbs then (s, [])
  else if ¬ accept then (s, [])
  else
    let tnew := createTransfer path filename friendnumber filesize true
    ({ s with transfers := insertK s.transfers fileNumber tnew },
      [.fileControlResume friendnumber fileNumber])

/-- Callback `onFileRecvChunk` (src/unnamed/part_005 lines 318-353): unknown transfers
are cancelled (zero-length completion signals ignored); otherwise write the
chunk, update the progress, and on reaching the declared size close the
transfer as successful and notify `OnFileReceived`. -/
def onFileRecvChunk (s : ChanState) (friendnumber fileNumber position dataLen : Nat)
    (address : String) (syncOk closeOk : Bool) : ChanState × List Effect :=
  match lookupK s.transfers fileNumber with
  | none =>
    if dataLen = 0 then (s, [])
    else (s, [.fileControlCancel friendnumber fileNumber])
  | some tran =>
    let m1 := insertK s.transfers fileNumber (tran.setProgress (position + dataLen))
    let s1 := { s with transfers := m1 }
    if tran.size ≤ position + dataLen then
      let c := closeTransfer s1 fileNumber .StSuccess syncOk closeOk
      (c.1, .writeFile tran.path position dataLen :: c.2
        ++ (if s.cbs then [.onFileReceived address tran.path tran.name] else []))
    else (s1, [.writeFile tran.path position dataLen])

/-- Callback `onFileChunkRequest` (src/unnamed/part_005 lines 358-403): mark the
peer's admission as started, clamp the requested length to the declared size,
finish the transfer successfully when nothing is left to send (clearing the
admission), otherwise read the chunk from the file and send it, updating the
progress. `address` is the `addressOf` result, `readOk` whether `ReadAt`
succeeded, `sendOk` whether `FileSendChunk` succeeded (only logged). -/
def onFileChunkRequest (s : ChanState) (friendNumber fileNumber position length : Nat)
    (address : String) (readOk sendOk : Bool) (syncOk closeOk : Bool) :
    ChanState × List Effect :=
  match lookupK s.transfers fileNumber with
  | none => (s, [])
  | some tran =>
    let s1 :=
      match lookupK s.sendActive address with
      | none => s
      | some sendTran =>
        { s with sendActive := insertK s.sendActive address { sendTran with started := true } }
    let length1 := if tran.size < length + position then tran.size - position else length
    if length1 = 0 then
      let c := closeTransfer s1 fileNumber .StSuccess syncOk closeOk
      ({ c.1 with sendActive := eraseK c.1.sendActive address }, c.2)
    else
      if readOk then
        let m1 := insertK s1.transfers fileNumber (tran.setProgress (position + length1))
        ({ s1 with transfers := m1 },
          [.readFile tran.path position length1,
           .sendChunk friendNumber fileNumber position length1])
      else (s1, [.readFile tran.path position length1])

/-- Possible result of `CancelFileTransfer`. -/
inductive CError where
  | transferNotFound
deriving DecidableEq

/-- Method `CancelFileTransfer` (src/public.go lines 165-189): find the first
registered transfer writing to the path; if none, return
`errTransferNotFound`; otherwise send a cancel control, close the transfer as
canceled and remove it. -/
def findTransferByPath : List (Nat × Transfer) → String → Option (Nat × Transfer)
  | [], _ => none
  | (k, t) :: rest, p => if t.path = p then some (k, t) else findTransferByPath rest p

def cancelFileTransfer (s : ChanState) (path : String) (syncOk closeOk : Bool) :
    ChanState × List Effect × Option CError :=
  match findTransferByPath s.transfers path with
  | none => (s, [], some .transferNotFound)
  | some (fileNumber, transfer) =>
    ({ s with transfers := eraseK s.transfers fileNumber },
      .fileControlCancel transfer.friend fileNumber
        :: (transfer.close .StCanceled syncOk closeOk).2,
      none)

/-- Modelled from the spec: the sender side of the `sending` channels (the
enqueue hand-off of a new outbound transfer into the peer's ready buffer) is
not among the provided sources; per the spec, new outbound-send requests are
marshaled onto the coordinator thread via a thread-safe FIFO hand-off per
peer. -/
def enqueueSend (s : ChanState) (address : String) (t : Transfer) : ChanState :=
  match lookupK s.sending address with
  | none => { s with sending := insertK s.sending address [t] }
  | some q => { s with sending := insertK s.sending address (q ++ [t]) }

/-- Method `Close` of the channel (src/public.go lines 14-26), after the stop signal
was delivered and the loop joined: kill the tox engine, then close every
remaining registered transfer as canceled (entries stay in the map; the
objects are closed). -/
def channelCloseGo (io : Nat → Bool × Bool) :
    List (Nat × Transfer) → List (Nat × Transfer) × List Effect
  | [] => ([], [])
  | kt :: rest =>
    let c := kt.2.close .StCanceled (io kt.1).1 (io kt.1).2
    let q := channelCloseGo io rest
    ((kt.1, c.1) :: q.1, c.2 ++ q.2)

def channelClose (s : ChanState) (io : Nat → Bool × Bool) :
    ChanState × List Effect :=
  let q := channelCloseGo io s.transfers
  ({ s with transfers := q.1 }, .killTox :: q.2)

/-! ## The coordinator events

Each event is one `select` case of `run` (src/unnamed/part_005 lines 38-89)
or one engine callback delivered during `tox.Iterate`, with the answers of
the outside world (engine results, resolved addresses, I/O outcomes) as
oracle data.
-/

inductive Event where
  | enqueue (address : String) (t : Transfer)
  | iterateTick
  | bootTick
  | sendTickEv (now : Nat) (fs : String → Option Nat) (io : String → Bool × Bool)
  | connStatus (friendnumber : Nat) (address : String) (online : Bool)
      (io : Nat → Bool × Bool)
  | recvControlCancel (friendnumber fileNumber : Nat) (addr : Option String)
      (syncOk closeOk : Bool)
  | fileRecvEv (friendnumber fileNumber filesize : Nat) (isData : Bool)
      (address : String) (accept : Bool) (path filename : String)
  | recvChunk (friendnumber fileNumber position dataLen : Nat) (address : String)
      (syncOk closeOk : Bool)
  | chunkRequest (friendNumber fileNumber position length : Nat) (address : String)
      (readOk sendOk syncOk closeOk : Bool)
  | cancelEv (path : String) (syncOk closeOk : Bool)

/-- One step of the coordinator: dispatch an event to its handler.
`tox.Iterate` and the bootstrap loop do not touch the transfer state. -/
def step (sendTimeout : Nat) (s : ChanState) : Event → ChanState × List Effect
  | .enqueue a t => (enqueueSend s a t, [])
  | .iterateTick => (s, [])
  | .bootTick => (s, [])
  | .sendTickEv now fs io => sendTick sendTimeout now fs io s
  | .connStatus f a online io => onFriendConnStatus s f a online io
  | .recvControlCancel f fn addr sOk cOk => onFileRecvControlCancel s f fn addr sOk cOk
  | .fileRecvEv f fn sz isData a acc p nm => onFileRecv s f fn sz isData a acc p nm
  | .recvChunk f fn pos dl a sOk cOk => onFileRecvChunk s f fn pos dl a sOk cOk
  | .chunkRequest f fn pos len a rOk sdOk sOk cOk =>
    onFileChunkRequest s f fn pos len a rOk sdOk sOk cOk
  | .cancelEv p sOk cOk =>
    let c := cancelFileTransfer s p sOk cOk
    (c.1, c.2.1)

/-- Run the coordinator over a sequence of events. -/
def runEvents (sendTimeout : Nat) (evs : List Event) (s : ChanState) : ChanState :=
  evs.foldl (fun s e => (step sendTimeout s e).1) s

/-- A state of the coordinator reachable from a fresh channel. -/
def Reachable (sendTimeout : Nat) (s : ChanState) : Prop :=
  ∃ cbs evs, runEvents sendTimeout evs (initChan cbs) = s

/-! ## The select loop of `run` (src/unnamed/part_005 lines 38-90)

Go's `select` picks uniformly at random among the cases that can proceed: the
stop case can proceed exactly when `Close` is blocked sending on the
unbuffered `stop` channel, a ticker case whenever its tick is due (real time,
unconstrained here). A `LoopTrace` records which cases the loop selects;
selecting `stop` makes the loop return (`wg.Done()`), ending the trace.
-/

inductive LoopCase where
  | stop
  | iterate
  | boot
  | send
deriving DecidableEq

/-- Relation `LoopTrace pending tr`: with the stop signal pending iff `pending`, the
loop can select exactly the cases of `tr` in order, terminating by selecting
`stop`. Any non-stop case may be ready simultaneously with the stop case, and
`select` may then pick it — Go gives no priority to any case. -/
inductive LoopTrace : Bool → List LoopCase → Prop
  | exit : LoopTrace true [.stop]
  | tick (pending : Bool) (c : LoopCase) (h : c ≠ .stop) (rest : List LoopCase)
      (hr : LoopTrace pending rest) : LoopTrace pending (c :: rest)

/-! ## General lemmas about the embedded structures -/

theorem eraseK_of_lookupK_none {K V : Type} [DecidableEq K]
    (l : List (K × V)) (a : K) (h : lookupK l a = none) : eraseK l a = l := by
  induction l with
  | nil => simp [eraseK]
  | cons kv rest ih =>
    by_cases hk : kv.1 = a
    · simp [lookupK, hk] at h
    · simp [lookupK, hk] at h
      simp [eraseK, hk, ih h]

theorem eq_of_mem_keys_nodup {K V : Type} [DecidableEq K]
    (l : List (K × V)) (kv kv' : K × V) (h : NodupKeys l)
    (h1 : kv ∈ l) (h2 : kv' ∈ l) (hk : kv.1 = kv'.1) : kv = kv' := by
  induction l with
  | nil => simp at h1
  | cons x rest ih =>
    have hx : x.1 ∉ rest.map Prod.fst := (List.nodup_cons.1 h).1
    have hrest : NodupKeys rest := (List.nodup_cons.1 h).2
    rcases List.mem_cons.1 h1 with e1 | m1 <;> rcases List.mem_cons.1 h2 with e2 | m2
    · exact e1.trans e2.symm
    · exfalso
      exact hx (by rw [← e1, hk]; exact List.mem_map_of_mem Prod.fst m2)
    · exfalso
      exact hx (by rw [← e2, ← hk]; exact List.mem_map_of_mem Prod.fst m1)
    · exact ih hrest m1 m2

/-- Lemma: `closeTransfer` only removes the entry from the registry: the rest of the
state is untouched, whether or not the transfer exists. -/
theorem closeTransfer_state (s : ChanState) (fn : Nat) (r : State) (a b : Bool) :
    (closeTransfer s fn r a b).1 = { s with transfers := eraseK s.transfers fn } := by
  unfold closeTransfer
  cases h : lookupK s.transfers fn with
  | none => simp [eraseK_of_lookupK_none s.transfers fn h]
  | some t => rfl

/-- Whether an effect is a completion-callback invocation. -/
def isCallbackEff : Effect → Bool
  | .callback _ _ => true
  | _ => false

/-! ## Claim C2: `Close` is idempotent and fires the callback exactly once -/

/-- Claim C2: for every transfer and every pair of `Close` calls, the first
call flushes and closes the file and invokes the completion callback exactly
once with the given terminal state — whatever I/O results `Sync` and `Close`
report — and the second call is a no-op, so the callback fires exactly once
in total. -/
theorem close_close_callback_once (t : Transfer) (st st2 : State)
    (s1 c1 s2 c2 : Bool) (hdone : t.isDone = false) (hcb : t.hasCallback = true) :
    (t.close st s1 c1).2
        = [.fileSync t.path s1, .fileClose t.path c1, .callback t.path st]
    ∧ (t.close st s1 c1).1.isDone = true
    ∧ ((t.close st s1 c1).1).close st2 s2 c2 = ((t.close st s1 c1).1, [])
    ∧ ((t.close st s1 c1).2 ++ (((t.close st s1 c1).1).close st2 s2 c2).2).filter
        isCallbackEff = [.callback t.path st] := by
  simp [Transfer.close, hdone, hcb, isCallbackEff]

theorem close_close_callback_once_witness :
    (((createTransfer "/tmp/f" "f" 1 10 true).close .StSuccess false false).2
        ++ ((((createTransfer "/tmp/f" "f" 1 10 true).close .StSuccess false false).1).close
              .StFailed true true).2).filter isCallbackEff
      = [.callback "/tmp/f" .StSuccess] :=
  (close_close_callback_once (createTransfer "/tmp/f" "f" 1 10 true)
    .StSuccess .StFailed false false true true rfl rfl).2.2.2

/-! ## Claim C6: `Percentage` versus `floor(100 * progress / size)`

The claim states `Percentage()` returns `floor(100 * p / s)`. The code
computes `int(100.0 * (float32(t.progress) / float32(t.size)))` in binary32
arithmetic; rounding `float32(2^25 - 1)` up to `2^25` makes the result `100`
at `progress = 2^25 - 1`, `size = 2^25`, where the exact floor is `99` — a
transfer that is not yet complete reports 100 percent. -/

/-- Claim C6: at `progress = 33554431`, `size = 33554432` the code returns
`100` while `floor(100 * progress / size) = 99`, refuting the claimed exact
floor; the `size = 0` half of the claim does hold (second and third
conjuncts). -/
theorem percentage_not_exact_floor :
    Transfer.percentage
        { path := "/tmp/f", name := "f", friend := 0, size := 33554432,
          progress := 33554431, hasCallback := false, isDone := false } = 100
    ∧ 100 * 33554431 / 33554432 = 99
    ∧ Transfer.percentage
        { path := "/tmp/f", name := "f", friend := 0, size := 0,
          progress := 5, hasCallback := false, isDone := false } = 0 := by
  refine ⟨by decide, by decide, by decide⟩

/-! ## Claim C7: the per-peer queues are FIFO -/

/-- Draining a queue with as many `get` calls as it has entries returns
exactly its entries, in order. -/
theorem drain_entriesAt (l : List Transfer) (qs : Queues) (a : String)
    (h : qs.entriesAt a = l) : qs.drain a l.length = l := by
  induction l generalizing qs with
  | nil => simp [Queues.drain]
  | cons t rest ih =>
    have hl : lookupK qs.heap a = some (t :: rest) := by
      unfold Queues.entriesAt at h
      cases hq : lookupK qs.heap a with
      | none => rw [hq] at h; simp at h
      | some q => rw [hq] at h; simp at h; rw [h]
    have hget : qs.get a = (some t, ⟨insertK qs.heap a rest⟩) := by
      unfold Queues.get
      rw [hl]
    have hrest : (Queues.mk (insertK qs.heap a rest)).entriesAt a = rest := by
      unfold Queues.entriesAt
      simp [lookupK_insertK_self]
    show Queues.drain qs a (rest.length + 1) = t :: rest
    unfold Queues.drain
    rw [hget]
    simpa using ih _ hrest

/-- Claim C7: enqueueing a non-nil transfer appends it to that peer's FIFO
(creating the queue lazily) and leaves every other queue unchanged; a nil
transfer changes nothing; `get` pops the oldest still-queued transfer of the
peer and signals `none` on an empty or absent queue; consequently transfers
leave each per-peer queue in exactly their enqueue order. -/
theorem queues_fifo (qs : Queues) (a b : String) (t : Transfer) (hab : b ≠ a) :
    Queues.add qs a none = qs
    ∧ (Queues.add qs a (some t)).entriesAt a = qs.entriesAt a ++ [t]
    ∧ (Queues.add qs a (some t)).entriesAt b = qs.entriesAt b
    ∧ (qs.entriesAt a = [] → qs.get a = (none, qs))
    ∧ (∀ u rest, qs.entriesAt a = u :: rest →
        (qs.get a).1 = some u ∧ ((qs.get a).2).entriesAt a = rest
        ∧ ((qs.get a).2).entriesAt b = qs.entriesAt b)
    ∧ (∀ l, qs.entriesAt a = l → qs.drain a l.length = l) := by
  refine ⟨rfl, ?_, ?_, ?_, ?_, fun l h => drain_entriesAt l qs a h⟩
  · unfold Queues.add Queues.entriesAt
    cases hq : lookupK qs.heap a with
    | none => simp [hq, lookupK_insertK_self]
    | some q => simp [hq, lookupK_insertK_self]
  · unfold Queues.add Queues.entriesAt
    cases hq : lookupK qs.heap a with
    | none => simp [hq, lookupK_insertK_ne qs.heap a b _ hab]
    | some q => simp [hq, lookupK_insertK_ne qs.heap a b _ hab]
  · intro h
    unfold Queues.entriesAt at h
    unfold Queues.get
    cases hq : lookupK qs.heap a with
    | none => simp
    | some q =>
      rw [hq] at h
      simp at h
      simp [h]
  · intro u rest h
    unfold Queues.entriesAt at h
    cases hq : lookupK qs.heap a with
    | none => rw [hq] at h; simp at h
    | some q =>
      rw [hq] at h
      simp at h
      subst h
      unfold Queues.get
      rw [hq]
      refine ⟨rfl, ?_, ?_⟩
      · unfold Queues.entriesAt
        simp [lookupK_insertK_self]
      · unfold Queues.entriesAt
        simp [lookupK_insertK_ne qs.heap a b _ hab]

theorem queues_fifo_witness :
    (Queues.add (Queues.add buildQueues "p1" (some (createTransfer "/a" "a" 1 4 true)))
        "p1" none).entriesAt "p1" = [createTransfer "/a" "a" 1 4 true] := by
  have h := queues_fifo (Queues.add buildQueues "p1" (some (createTransfer "/a" "a" 1 4 true)))
    "p1" "p2" (createTransfer "/a" "a" 1 4 true) (by decide)
  rw [h.1]
  decide

/-! ## Claim C9: `CancelFileTransfer` -/

theorem findTransferByPath_none_iff (l : List (Nat × Transfer)) (p : String) :
    findTransferByPath l p = none ↔ ∀ kt ∈ l, kt.2.path ≠ p := by
  induction l with
  | nil => simp [findTransferByPath]
  | cons kt rest ih =>
    by_cases h : kt.2.path = p
    · simp [findTransferByPath, h]
    · simp [findTransferByPath, h, ih]

theorem findTransferByPath_some (l : List (Nat × Transfer)) (p : String)
    (fn : Nat) (t : Transfer) (h : findTransferByPath l p = some (fn, t)) :
    (fn, t) ∈ l ∧ t.path = p := by
  induction l with
  | nil => simp [findTransferByPath] at h
  | cons kt rest ih =>
    by_cases hp : kt.2.path = p
    · unfold findTransferByPath at h
      rw [if_pos hp] at h
      have : kt = (fn, t) := by
        cases kt
        have h' := h
        simp at h'
        simp [h'.1, h'.2]
      subst this
      exact ⟨List.mem_cons_self _ _, hp⟩
    · unfold findTransferByPath at h
      rw [if_neg hp] at h
      have := ih h
      exact ⟨List.mem_cons.2 (Or.inr this.1), this.2⟩

/-- Claim C9: `CancelFileTransfer p` returns the transfer-not-found error
exactly when no registered transfer has path `p`, leaving the state untouched
in that case; otherwise it sends a cancel control for the matching transfer,
closes it as canceled (syncing and closing its file, with the callback when
one is set), removes it from the registry and returns nil. -/
theorem cancelFileTransfer_spec (s : ChanState) (p : String) (s1 c1 : Bool) :
    ((cancelFileTransfer s p s1 c1).2.2 = some .transferNotFound
        ↔ ∀ kt ∈ s.transfers, kt.2.path ≠ p)
    ∧ ((∀ kt ∈ s.transfers, kt.2.path ≠ p) →
        cancelFileTransfer s p s1 c1 = (s, [], some .transferNotFound))
    ∧ (∀ fn t, findTransferByPath s.transfers p = some (fn, t) →
        t.path = p
        ∧ cancelFileTransfer s p s1 c1
            = ({ s with transfers := eraseK s.transfers fn },
               .fileControlCancel t.friend fn :: (t.close .StCanceled s1 c1).2,
               none)
        ∧ lookupK (cancelFileTransfer s p s1 c1).1.transfers fn = none
        ∧ (t.isDone = false → t.hasCallback = true →
            .callback t.path .StCanceled ∈ (cancelFileTransfer s p s1 c1).2.1)) := by
  refine ⟨?_, ?_, ?_⟩
  · constructor
    · intro h
      rw [← findTransferByPath_none_iff]
      unfold cancelFileTransfer at h
      cases hf : findTransferByPath s.transfers p with
      | none => rfl
      | some kt =>
        cases kt
        rw [hf] at h
        simp at h
    · intro h
      unfold cancelFileTransfer
      rw [(findTransferByPath_none_iff s.transfers p).2 h]
  · intro h
    unfold cancelFileTransfer
    rw [(findTransferByPath_none_iff s.transfers p).2 h]
  · intro fn t hf
    refine ⟨(findTransferByPath_some s.transfers p fn t hf).2, ?_, ?_, ?_⟩
    · unfold cancelFileTransfer
      rw [hf]
    · unfold cancelFileTransfer
      rw [hf]
      simpa using lookupK_eraseK_self s.transfers fn
    · intro hdone hcb
      unfold cancelFileTransfer
      rw [hf]
      simp [Transfer.close, hdone, hcb]

theorem cancelFileTransfer_spec_witness :
    cancelFileTransfer (initChan true) "/nope" true true
      = (initChan true, [], some .transferNotFound) :=
  (cancelFileTransfer_spec (initChan true) "/nope" true true).2.1
    (by intro kt h; simp [initChan] at h)

/-! ## Claim C10: chunk requests never read past the declared size -/

/-- Claim C10: for a chunk request on a registered transfer with
`position ≤ size`, the handler reads exactly `min length (size - position)`
bytes at `position` from the file — so no byte at or past `size` is ever
read — and hands exactly that chunk to `FileSendChunk` when the read
succeeds; when that minimum is `0` it instead closes the transfer as
successful, removes it from the registry and clears the peer's admission,
sending no further chunk. -/
theorem chunkRequest_bounded (s : ChanState) (f fn pos len : Nat) (a : String)
    (rOk sdOk s1 c1 : Bool) (tr : Transfer)
    (hreg : lookupK s.transfers fn = some tr) (hpos : pos ≤ tr.size) :
    (0 < min len (tr.size - pos) →
      pos + min len (tr.size - pos) ≤ tr.size
      ∧ .readFile tr.path pos (min len (tr.size - pos))
          ∈ (onFileChunkRequest s f fn pos len a rOk sdOk s1 c1).2
      ∧ (rOk = true →
          (onFileChunkRequest s f fn pos len a rOk sdOk s1 c1).2
            = [.readFile tr.path pos (min len (tr.size - pos)),
               .sendChunk f fn pos (min len (tr.size - pos))])
      ∧ (rOk = false →
          (onFileChunkRequest s f fn pos len a rOk sdOk s1 c1).2
            = [.readFile tr.path pos (min len (tr.size - pos))]))
    ∧ (min len (tr.size - pos) = 0 →
        lookupK (onFileChunkRequest s f fn pos len a rOk sdOk s1 c1).1.transfers fn = none
        ∧ lookupK (onFileChunkRequest s f fn pos len a rOk sdOk s1 c1).1.sendActive a = none
        ∧ (onFileChunkRequest s f fn pos len a rOk sdOk s1 c1).2
            = (tr.close .StSuccess s1 c1).2
        ∧ (∀ f2 fn2 p2 l2, .sendChunk f2 fn2 p2 l2
            ∉ (onFileChunkRequest s f fn pos len a rOk sdOk s1 c1).2)
        ∧ (∀ p2 q2 l2, .readFile p2 q2 l2
            ∉ (onFileChunkRequest s f fn pos len a rOk sdOk s1 c1).2)) := by
  have hlen : (if tr.size < len + pos then tr.size - pos else len)
      = min len (tr.size - pos) := by
    by_cases h : tr.size < len + pos
    · rw [if_pos h]
      have : tr.size - pos ≤ len := by omega
      omega
    · rw [if_neg h]
      have : len ≤ tr.size - pos := by omega
      omega
  constructor
  · intro hmin
    have hne : ¬ (if tr.size < len + pos then tr.size - pos else len) = 0 := by
      rw [hlen]; omega
    refine ⟨by omega, ?_, ?_, ?_⟩
    · unfold onFileChunkRequest
      rw [hreg]
      simp only [hne, if_neg hne]
      cases rOk <;> simp [hlen]
    · intro hr
      subst hr
      unfold onFileChunkRequest
      rw [hreg]
      simp only [if_neg hne]
      simp [hlen]
    · intro hr
      subst hr
      unfold onFileChunkRequest
      rw [hreg]
      simp only [if_neg hne]
      simp [hlen]
  · intro hmin
    have hz : (if tr.size < len + pos then tr.size - pos else len) = 0 := by
      rw [hlen]; omega
    have hnochunk : ∀ l2 : List Effect, l2 = (tr.close .StSuccess s1 c1).2 →
        (∀ f2 fn2 p2 q2, .sendChunk f2 fn2 p2 q2 ∉ l2)
        ∧ (∀ p2 q2 r2, .readFile p2 q2 r2 ∉ l2) := by
      intro l2 hl2
      subst hl2
      unfold Transfer.close
      constructor
      · intro f2 fn2 p2 q2
        by_cases hd : tr.isDone <;> simp [hd] <;> cases htc : tr.hasCallback <;> simp
      · intro p2 q2 r2
        by_cases hd : tr.isDone <;> simp [hd] <;> cases htc : tr.hasCallback <;> simp
    cases hsa : lookupK s.sendActive a with
    | none =>
      have hfull : onFileChunkRequest s f fn pos len a rOk sdOk s1 c1
          = ({ s with
                transfers := eraseK s.transfers fn,
                sendActive := eraseK s.sendActive a },
             (tr.close .StSuccess s1 c1).2) := by
        unfold onFileChunkRequest
        rw [hreg]
        simp only [hsa, hz, closeTransfer, hreg]
        simp
      rw [hfull]
      exact ⟨lookupK_eraseK_self _ _, lookupK_eraseK_self _ _, rfl,
        (hnochunk _ rfl).1, (hnochunk _ rfl).2⟩
    | some st =>
      have hfull : onFileChunkRequest s f fn pos len a rOk sdOk s1 c1
          = ({ s with
                transfers := eraseK s.transfers fn,
                sendActive := eraseK (insertK s.sendActive a { st with started := true }) a },
             (tr.close .StSuccess s1 c1).2) := by
        unfold onFileChunkRequest
        rw [hreg]
        simp only [hsa, hz, closeTransfer, hreg]
        simp
      rw [hfull]
      exact ⟨lookupK_eraseK_self _ _, lookupK_eraseK_self _ _, rfl,
        (hnochunk _ rfl).1, (hnochunk _ rfl).2⟩

theorem chunkRequest_bounded_witness :
    (onFileChunkRequest
        { transfers := [(5, createTransfer "/tmp/f" "f" 1 10 true)],
          sendActive := [], sending := [], cbs := true }
        1 5 4 7 "pa" true true true true).2
      = [.readFile "/tmp/f" 4 (min 7 (10 - 4)),
         .sendChunk 1 5 4 (min 7 (10 - 4))] :=
  (((chunkRequest_bounded
      { transfers := [(5, createTransfer "/tmp/f" "f" 1 10 true)],
        sendActive := [], sending := [], cbs := true }
      1 5 4 7 "pa" true true true true (createTransfer "/tmp/f" "f" 1 10 true)
      (by decide) (by decide)).1 (by decide)).2.2.1) rfl

/-! ## Claim C8: a failed send-initiation fails only that one transfer -/

/-- The two outcomes of one admission attempt (`case t := <-ready` followed by
`triggerSend`): shared by several results below. -/
theorem sendTickPeer_admission (T now : Nat) (fs : String → Option Nat)
    (io : String → Bool × Bool) (s : ChanState) (a : String) (t : Transfer)
    (rest : List Transfer)
    (hno : lookupK s.sendActive a = none)
    (hq : lookupK s.sending a = some (t :: rest)) :
    (fs a = none →
      sendTickPeer T now fs io s a
        = ({ s with sending := insertK s.sending a rest },
           .fileSend t.friend t.size t.name
             :: (t.close .StFailed (io a).1 (io a).2).2))
    ∧ (∀ n, fs a = some n →
        sendTickPeer T now fs io s a
          = ({ s with
                sending := insertK s.sending a rest,
                sendActive := insertK s.sendActive a (buildSendTransfer now n),
                transfers := insertK s.transfers n t },
             [.fileSend t.friend t.size t.name])) := by
  constructor
  · intro hfs
    unfold sendTickPeer
    rw [hno]
    unfold dequeueReady
    rw [hq]
    unfold triggerSend
    rw [hfs]
  · intro n hfs
    unfold sendTickPeer
    rw [hno]
    unfold dequeueReady
    rw [hq]
    unfold triggerSend
    rw [hfs]

/-- Claim C8: in an admission attempt for a peer with no active admission and
queue head `t`, a `FileSend` error closes exactly that dequeued transfer as
failed and leaves the registry, the peer's remaining queue and every other
peer's state unchanged; on success the returned id is recorded in the
registry and a fresh, not-yet-started admission is recorded for the peer. -/
theorem triggerSend_failure_isolated (T now : Nat) (fs : String → Option Nat)
    (io : String → Bool × Bool) (s : ChanState) (a : String) (t : Transfer)
    (rest : List Transfer)
    (hno : lookupK s.sendActive a = none)
    (hq : lookupK s.sending a = some (t :: rest)) :
    (fs a = none →
      sendTickPeer T now fs io s a
        = ({ s with sending := insertK s.sending a rest },
           .fileSend t.friend t.size t.name
             :: (t.close .StFailed (io a).1 (io a).2).2))
    ∧ (∀ n, fs a = some n →
        sendTickPeer T now fs io s a
          = ({ s with
                sending := insertK s.sending a rest,
                sendActive := insertK s.sendActive a (buildSendTransfer now n),
                transfers := insertK s.transfers n t },
             [.fileSend t.friend t.size t.name])) :=
  sendTickPeer_admission T now fs io s a t rest hno hq

theorem triggerSend_failure_isolated_witness :
    sendTickPeer 5 1 (fun _ => none) (fun _ => (true, true))
        { transfers := [], sendActive := [],
          sending := [("pa", [createTransfer "/a" "a" 2 9 true])], cbs := true } "pa"
      = ({ transfers := [], sendActive := [],
            sending := insertK [("pa", [createTransfer "/a" "a" 2 9 true])] "pa" [],
            cbs := true },
         .fileSend 2 9 "a"
           :: ((createTransfer "/a" "a" 2 9 true).close .StFailed true true).2) :=
  (triggerSend_failure_isolated 5 1 (fun _ => none) (fun _ => (true, true))
    { transfers := [], sendActive := [],
      sending := [("pa", [createTransfer "/a" "a" 2 9 true])], cbs := true }
    "pa" (createTransfer "/a" "a" 2 9 true) [] rfl rfl).1 rfl


/-! ## Claim C3: stale admissions are timed out and unblock the queue -/

/-- Claim C3: an existing admission is stale exactly when
`now - admittedAt > sendTimeout` and streaming has not started; when the
admission cycle finds it stale it closes that registered transfer as timed
out, removes it from the registry and clears the peer's admission, after
which a following cycle can admit the peer's next queued transfer. -/
theorem stale_admission_timeout (T now : Nat) (fs : String → Option Nat)
    (io : String → Bool × Bool) (s : ChanState) (a : String)
    (st : SendTransfer) (tr : Transfer)
    (hact : lookupK s.sendActive a = some st)
    (hreg : lookupK s.transfers st.fileNumber = some tr) :
    (st.isStale T now = true ↔ (T < now - st.began ∧ st.started = false))
    ∧ (st.isStale T now = true →
        (sendTickPeer T now fs io s a).1.sendActive = eraseK s.sendActive a
        ∧ lookupK (sendTickPeer T now fs io s a).1.sendActive a = none
        ∧ lookupK (sendTickPeer T now fs io s a).1.transfers st.fileNumber = none
        ∧ (sendTickPeer T now fs io s a).2
            = (tr.close .StTimeout (io a).1 (io a).2).2
        ∧ (sendTickPeer T now fs io s a).1.sending = s.sending
        ∧ (∀ now2 fs2 io2 t rest n,
            lookupK s.sending a = some (t :: rest) → fs2 a = some n →
            lookupK (sendTickPeer T now2 fs2 io2 (sendTickPeer T now fs io s a).1 a).1.sendActive a
              = some (buildSendTransfer now2 n)
            ∧ lookupK (sendTickPeer T now2 fs2 io2 (sendTickPeer T now fs io s a).1 a).1.sending a
              = some rest
            ∧ lookupK (sendTickPeer T now2 fs2 io2 (sendTickPeer T now fs io s a).1 a).1.transfers n
              = some t)) := by
  constructor
  · unfold SendTransfer.isStale
    constructor
    · intro h
      simp at h
      exact ⟨h.1, h.2⟩
    · intro h
      simp [h.1, h.2]
  · intro hstale
    have hfull : sendTickPeer T now fs io s a
        = ({ s with
              transfers := eraseK s.transfers st.fileNumber,
              sendActive := eraseK s.sendActive a },
           (tr.close .StTimeout (io a).1 (io a).2).2) := by
      unfold sendTickPeer
      rw [hact]
      simp only [hstale, closeTransfer, hreg]
      simp
    refine ⟨?_, ?_, ?_, ?_, ?_, ?_⟩
    · rw [hfull]
    · rw [hfull]
      exact lookupK_eraseK_self _ _
    · rw [hfull]
      exact lookupK_eraseK_self _ _
    · rw [hfull]
    · rw [hfull]
    · intro now2 fs2 io2 t rest n hsend hfs2
      have hact2 : lookupK (sendTickPeer T now fs io s a).1.sendActive a = none := by
        rw [hfull]
        exact lookupK_eraseK_self _ _
      have hq2 : lookupK (sendTickPeer T now fs io s a).1.sending a = some (t :: rest) := by
        rw [hfull]
        exact hsend
      have h2 := (sendTickPeer_admission T now2 fs2 io2
        (sendTickPeer T now fs io s a).1 a t rest hact2 hq2).2 n hfs2
      rw [h2]
      refine ⟨?_, ?_, ?_⟩
      · exact lookupK_insertK_self _ _ _
      · exact lookupK_insertK_self _ _ _
      · exact lookupK_insertK_self _ _ _

theorem stale_admission_timeout_witness :
    lookupK (sendTickPeer 5 10 (fun _ => none) (fun _ => (true, true))
        { transfers := [(4, createTransfer "/x" "x" 1 10 true)],
          sendActive := [("pa", { started := false, began := 0, fileNumber := 4 })],
          sending := [("pa", [createTransfer "/y" "y" 1 3 true])], cbs := true }
        "pa").1.sendActive "pa" = none :=
  ((stale_admission_timeout 5 10 (fun _ => none) (fun _ => (true, true))
      { transfers := [(4, createTransfer "/x" "x" 1 10 true)],
        sendActive := [("pa", { started := false, began := 0, fileNumber := 4 })],
        sending := [("pa", [createTransfer "/y" "y" 1 3 true])], cbs := true }
      "pa" { started := false, began := 0, fileNumber := 4 }
      (createTransfer "/x" "x" 1 10 true) rfl rfl).2 (by decide)).2.1

/-! ## Claim C4: peer-connectivity changes fail exactly that peer's transfers -/

theorem foldl_eraseK_filter {K V : Type} [DecidableEq K]
    (c : List (K × V)) (m : List (K × V)) :
    c.foldl (fun m2 kt => eraseK m2 kt.1) m
      = m.filter (fun kt => decide (kt.1 ∉ c.map Prod.fst)) := by
  induction c generalizing m with
  | nil => simp
  | cons kt c' ih =>
    show c'.foldl (fun m2 kt => eraseK m2 kt.1) (eraseK m kt.1) = _
    rw [ih (eraseK m kt.1), eraseK_eq_filter, List.filter_filter]
    apply List.filter_congr
    intro x _
    by_cases h1 : x.1 = kt.1 <;> by_cases h2 : x.1 ∈ c'.map Prod.fst <;>
      simp [h1, h2]

theorem mem_keys_filter_iff {K V : Type} [DecidableEq K]
    (m : List (K × V)) (P : (K × V) → Bool) (kt : K × V)
    (hnd : NodupKeys m) (hmem : kt ∈ m) :
    kt.1 ∈ (m.filter P).map Prod.fst ↔ P kt = true := by
  constructor
  · intro h
    rcases List.mem_map.1 h with ⟨kt', hkt', hkey⟩
    have hkt'm : kt' ∈ m := (List.mem_filter.1 hkt').1
    have hP : P kt' = true := (List.mem_filter.1 hkt').2
    have : kt = kt' := eq_of_mem_keys_nodup m kt kt' hnd hmem hkt'm hkey.symm
    rw [this]
    exact hP
  · intro h
    exact List.mem_map_of_mem Prod.fst (List.mem_filter.2 ⟨hmem, h⟩)

/-- Lemma: `closeCanceledGo` only erases the closed entries from the registry. -/
theorem closeCanceledGo_state (address : String) (io : Nat → Bool × Bool)
    (cbs : Bool) (c : List (Nat × Transfer)) (s : ChanState) :
    (closeCanceledGo address io cbs c s).1
      = { s with transfers := c.foldl (fun m2 kt => eraseK m2 kt.1) s.transfers } := by
  induction c generalizing s with
  | nil => simp [closeCanceledGo]
  | cons kt c' ih =>
    show (closeCanceledGo address io cbs c'
        (closeTransfer s kt.1 .StFailed (io kt.1).1 (io kt.1).2).1).1 = _
    rw [ih, closeTransfer_state]
    simp

/-- The trace of `closeCanceledGo` over entries that are present with distinct
keys: each is closed as failed and `OnFileCanceled` is dispatched. -/
theorem closeCanceledGo_effects (address : String) (io : Nat → Bool × Bool)
    (cbs : Bool) (c : List (Nat × Transfer)) (s : ChanState)
    (hnd : NodupKeys c)
    (hlk : ∀ kt ∈ c, lookupK s.transfers kt.1 = some kt.2) :
    (closeCanceledGo address io cbs c s).2
      = c.flatMap (fun kt => (kt.2.close .StFailed (io kt.1).1 (io kt.1).2).2
          ++ (if cbs then [.onFileCanceled address kt.2.path] else [])) := by
  induction c generalizing s with
  | nil => simp [closeCanceledGo]
  | cons kt c' ih =>
    have hk : kt.1 ∉ c'.map Prod.fst := (List.nodup_cons.1 hnd).1
    have hnd' : NodupKeys c' := (List.nodup_cons.1 hnd).2
    have hhead : lookupK s.transfers kt.1 = some kt.2 :=
      hlk kt (List.mem_cons_self _ _)
    have hclose : closeTransfer s kt.1 .StFailed (io kt.1).1 (io kt.1).2
        = ({ s with transfers := eraseK s.transfers kt.1 },
           (kt.2.close .StFailed (io kt.1).1 (io kt.1).2).2) := by
      unfold closeTransfer
      rw [hhead]
    have hlk' : ∀ kt' ∈ c',
        lookupK ({ s with transfers := eraseK s.transfers kt.1} : ChanState).transfers kt'.1
          = some kt'.2 := by
      intro kt' hmem
      have hne : kt'.1 ≠ kt.1 := by
        intro hh
        exact hk (hh ▸ List.mem_map_of_mem Prod.fst hmem)
      show lookupK (eraseK s.transfers kt.1) kt'.1 = some kt'.2
      rw [lookupK_eraseK_ne s.transfers kt.1 kt'.1 hne]
      exact hlk kt' (List.mem_cons.2 (Or.inr hmem))
    have hstep : (closeCanceledGo address io cbs (kt :: c') s).2
        = ((closeTransfer s kt.1 .StFailed (io kt.1).1 (io kt.1).2).2
            ++ (if cbs then [.onFileCanceled address kt.2.path] else []))
          ++ (closeCanceledGo address io cbs c'
              (closeTransfer s kt.1 .StFailed (io kt.1).1 (io kt.1).2).1).2 := rfl
    rw [hstep, hclose]
    rw [ih _ hnd' hlk']
    rw [List.flatMap_cons]

/-- Claim C4: on a peer-connectivity change, every registered transfer of that
friend is closed as failed and removed from the registry, the peer's
admission (if any) is cleared, while the peer's send queue, the other peers'
transfers, queues and admissions are untouched. -/
theorem connStatus_fails_peer_transfers (s : ChanState) (f : Nat)
    (address : String) (online : Bool) (io : Nat → Bool × Bool)
    (hnd : NodupKeys s.transfers) :
    (onFriendConnStatus s f address online io).1.transfers
        = s.transfers.filter (fun kt => ¬ kt.2.friend = f)
    ∧ lookupK (onFriendConnStatus s f address online io).1.sendActive address = none
    ∧ (∀ b, b ≠ address →
        lookupK (onFriendConnStatus s f address online io).1.sendActive b
          = lookupK s.sendActive b)
    ∧ (onFriendConnStatus s f address online io).1.sending = s.sending
    ∧ (onFriendConnStatus s f address online io).2
        = (s.transfers.filter (fun kt => kt.2.friend = f)).flatMap
            (fun kt => (kt.2.close .StFailed (io kt.1).1 (io kt.1).2).2
              ++ (if s.cbs then [.onFileCanceled address kt.2.path] else []))
          ++ (if online then (if s.cbs then [.onConnected address] else []) else [])
    ∧ (∀ kt ∈ s.transfers, kt.2.friend = f → kt.2.isDone = false →
        kt.2.hasCallback = true → s.cbs = true →
        .callback kt.2.path .StFailed ∈ (onFriendConnStatus s f address online io).2) := by
  have hckeys : NodupKeys (s.transfers.filter (fun kt => kt.2.friend = f)) := by
    unfold NodupKeys
    exact (List.Sublist.map Prod.fst (List.filter_sublist s.transfers)).nodup hnd
  have hclk : ∀ kt ∈ s.transfers.filter (fun kt => kt.2.friend = f),
      lookupK s.transfers kt.1 = some kt.2 := by
    intro kt hmem
    exact lookupK_of_mem_nodup s.transfers kt (List.mem_filter.1 hmem).1 hnd
  have hfcongr : s.transfers.filter
      (fun kt => decide (kt.1 ∉ (s.transfers.filter (fun kt => kt.2.friend = f)).map Prod.fst))
      = s.transfers.filter (fun kt => ¬ kt.2.friend = f) := by
    apply List.filter_congr
    intro kt hmem
    have hiff := mem_keys_filter_iff s.transfers (fun kt => kt.2.friend = f) kt hnd hmem
    by_cases h : kt.2.friend = f
    · simp [hiff, h]
    · simp [hiff, h]
  have hstate : (onFriendConnStatus s f address online io).1
      = { s with
          transfers := s.transfers.filter (fun kt => ¬ kt.2.friend = f),
          sendActive := eraseK s.sendActive address } := by
    have h1 := closeCanceledGo_state address io s.cbs
      (s.transfers.filter (fun kt => kt.2.friend = f)) s
    simp only [onFriendConnStatus, h1, foldl_eraseK_filter, hfcongr]
  have heff : (onFriendConnStatus s f address online io).2
      = (s.transfers.filter (fun kt => kt.2.friend = f)).flatMap
          (fun kt => (kt.2.close .StFailed (io kt.1).1 (io kt.1).2).2
            ++ (if s.cbs then [.onFileCanceled address kt.2.path] else []))
        ++ (if online then (if s.cbs then [.onConnected address] else []) else []) := by
    have h1 := closeCanceledGo_effects address io s.cbs
      (s.transfers.filter (fun kt => kt.2.friend = f)) s hckeys hclk
    simp only [onFriendConnStatus, h1]
  refine ⟨?_, ?_, ?_, ?_, heff, ?_⟩
  · rw [hstate]
  · rw [hstate]
    exact lookupK_eraseK_self _ _
  · intro b hb
    rw [hstate]
    exact lookupK_eraseK_ne _ _ _ hb
  · rw [hstate]
  · intro kt hmem hf hdone hcb hcbs
    rw [heff]
    apply List.mem_append.2
    apply Or.inl
    apply List.mem_flatMap.2
    refine ⟨kt, List.mem_filter.2 ⟨hmem, by simp [hf]⟩, ?_⟩
    apply List.mem_append.2
    apply Or.inl
    unfold Transfer.close
    simp [hdone, hcb]

theorem connStatus_fails_peer_transfers_witness :
    (onFriendConnStatus
        { transfers := [(4, createTransfer "/x" "x" 1 10 true),
                        (6, createTransfer "/z" "z" 2 8 true)],
          sendActive := [("pa", { started := false, began := 0, fileNumber := 4 })],
          sending := [("pa", [createTransfer "/y" "y" 1 3 true])], cbs := true }
        1 "pa" false (fun _ => (true, true))).1.transfers
      = [(6, createTransfer "/z" "z" 2 8 true)] := by
  have h := (connStatus_fails_peer_transfers
    { transfers := [(4, createTransfer "/x" "x" 1 10 true),
                    (6, createTransfer "/z" "z" 2 8 true)],
      sendActive := [("pa", { started := false, began := 0, fileNumber := 4 })],
      sending := [("pa", [createTransfer "/y" "y" 1 3 true])], cbs := true }
    1 "pa" false (fun _ => (true, true)) (by unfold NodupKeys; decide)).1
  rw [h]
  decide

/-! ## Claim C1: at most one active outbound transfer per peer

The Go maps guarantee key uniqueness structurally; in the association-list
embedding this is the invariant `GoodState`, preserved by every coordinator
event, so every reachable state stores at most one `sendActive` entry per
address. On top of that, an admission cycle starts a new send for a peer only
when the peer has no admission, and dequeues exactly the queue head.
-/

/-- Well-formedness of the embedded maps: unique keys everywhere. -/
def GoodState (s : ChanState) : Prop :=
  NodupKeys s.transfers ∧ NodupKeys s.sendActive ∧ NodupKeys s.sending

theorem goodState_initChan (cbs : Bool) : GoodState (initChan cbs) := by
  refine ⟨?_, ?_, ?_⟩ <;> simp [initChan, NodupKeys]

theorem goodState_closeTransfer (s : ChanState) (fn : Nat) (r : State)
    (a b : Bool) (hg : GoodState s) : GoodState (closeTransfer s fn r a b).1 := by
  rw [closeTransfer_state]
  exact ⟨nodupKeys_eraseK _ _ hg.1, hg.2.1, hg.2.2⟩

theorem goodState_sendTickPeer (T now : Nat) (fs : String → Option Nat)
    (io : String → Bool × Bool) (s : ChanState) (a : String)
    (hg : GoodState s) : GoodState (sendTickPeer T now fs io s a).1 := by
  unfold sendTickPeer
  cases hsa : lookupK s.sendActive a with
  | none =>
    unfold dequeueReady
    cases hq : lookupK s.sending a with
    | none => exact hg
    | some q =>
      cases q with
      | nil => exact hg
      | cons t rest =>
        unfold triggerSend
        cases hfs : fs a with
        | none =>
          exact ⟨hg.1, hg.2.1, nodupKeys_insertK _ _ _ hg.2.2⟩
        | some n =>
          exact ⟨nodupKeys_insertK _ _ _ hg.1,
            nodupKeys_insertK _ _ _ hg.2.1,
            nodupKeys_insertK _ _ _ hg.2.2⟩
  | some st =>
    cases hstale : st.isStale T now with
    | true =>
      simp only [hstale, if_pos]
      have h1 := goodState_closeTransfer s st.fileNumber .StTimeout (io a).1 (io a).2 hg
      exact ⟨h1.1, nodupKeys_eraseK _ _ h1.2.1, h1.2.2⟩
    | false =>
      simp only [hstale, Bool.false_eq_true, if_false]
      exact hg

theorem goodState_sendTickGo (T now : Nat) (fs : String → Option Nat)
    (io : String → Bool × Bool) (l : List String) (s : ChanState)
    (hg : GoodState s) : GoodState (sendTickGo T now fs io l s).1 := by
  induction l generalizing s with
  | nil => exact hg
  | cons a rest ih =>
    exact ih _ (goodState_sendTickPeer T now fs io s a hg)

theorem goodState_step (T : Nat) (s : ChanState) (e : Event)
    (hg : GoodState s) : GoodState (step T s e).1 := by
  cases e with
  | enqueue a t =>
    show GoodState (enqueueSend s a t)
    unfold enqueueSend
    cases hq : lookupK s.sending a with
    | none => exact ⟨hg.1, hg.2.1, nodupKeys_insertK _ _ _ hg.2.2⟩
    | some q => exact ⟨hg.1, hg.2.1, nodupKeys_insertK _ _ _ hg.2.2⟩
  | iterateTick => exact hg
  | bootTick => exact hg
  | sendTickEv now fs io =>
    show GoodState (sendTick T now fs io s).1
    exact goodState_sendTickGo T now fs io _ s hg
  | connStatus f a online io =>
    show GoodState (onFriendConnStatus s f a online io).1
    unfold onFriendConnStatus
    have h1 := closeCanceledGo_state a io s.cbs
      (s.transfers.filter (fun kt => kt.2.friend = f)) s
    simp only [h1, foldl_eraseK_filter]
    refine ⟨?_, nodupKeys_eraseK _ _ hg.2.1, hg.2.2⟩
    unfold NodupKeys
    exact (List.Sublist.map Prod.fst (List.filter_sublist s.transfers)).nodup hg.1
  | recvControlCancel f fn addr sOk cOk =>
    show GoodState (onFileRecvControlCancel s f fn addr sOk cOk).1
    unfold onFileRecvControlCancel
    cases hreg : lookupK s.transfers fn with
    | none => exact hg
    | some t =>
      have h1 := goodState_closeTransfer s fn .StCanceled sOk cOk hg
      cases addr with
      | none => exact h1
      | some address => exact ⟨h1.1, nodupKeys_eraseK _ _ h1.2.1, h1.2.2⟩
  | fileRecvEv f fn sz isData a acc p nm =>
    show GoodState (onFileRecv s f fn sz isData a acc p nm).1
    unfold onFileRecv
    by_cases h1 : isData = true
    · by_cases h2 : s.cbs = true
      · by_cases h3 : acc = true
        · simp only [h1, h2, h3]
          simp
          exact ⟨nodupKeys_insertK _ _ _ hg.1, hg.2.1, hg.2.2⟩
        · simp [h1, h2, h3]
          exact hg
      · simp [h1, h2]
        exact hg
    · simp [h1]
      exact hg
  | recvChunk f fn pos dl a sOk cOk =>
    show GoodState (onFileRecvChunk s f fn pos dl a sOk cOk).1
    unfold onFileRecvChunk
    cases hreg : lookupK s.transfers fn with
    | none =>
      by_cases h : dl = 0 <;> simp [h] <;> exact hg
    | some t =>
      have hg1 : GoodState { s with transfers := insertK s.transfers fn (t.setProgress (pos + dl)) } :=
        ⟨nodupKeys_insertK _ _ _ hg.1, hg.2.1, hg.2.2⟩
      by_cases h : t.size ≤ pos + dl
      · simp only [h, if_pos]
        exact goodState_closeTransfer _ fn .StSuccess sOk cOk hg1
      · simp only [if_neg h]
        exact hg1
  | chunkRequest f fn pos len a rOk sdOk sOk cOk =>
    show GoodState (onFileChunkRequest s f fn pos len a rOk sdOk sOk cOk).1
    unfold onFileChunkRequest
    cases hreg : lookupK s.transfers fn with
    | none => exact hg
    | some t =>
      have hg1 : GoodState (match lookupK s.sendActive a with
          | none => s
          | some sendTran =>
            { s with sendActive := insertK s.sendActive a { sendTran with started := true } }) := by
        cases hsa : lookupK s.sendActive a with
        | none => exact hg
        | some st => exact ⟨hg.1, nodupKeys_insertK _ _ _ hg.2.1, hg.2.2⟩
      by_cases hz : (if t.size < len + pos then t.size - pos else len) = 0
      · simp only [hz, if_pos]
        have h2 := goodState_closeTransfer _ fn .StSuccess sOk cOk hg1
        exact ⟨h2.1, nodupKeys_eraseK _ _ h2.2.1, h2.2.2⟩
      · simp only [if_neg hz]
        cases rOk with
        | true =>
          simp only [if_pos rfl]
          exact ⟨nodupKeys_insertK _ _ _ hg1.1, hg1.2.1, hg1.2.2⟩
        | false =>
          simp
          exact hg1
  | cancelEv p sOk cOk =>
    show GoodState (cancelFileTransfer s p sOk cOk).1
    unfold cancelFileTransfer
    cases hf : findTransferByPath s.transfers p with
    | none => exact hg
    | some kt =>
      cases kt with
      | mk fn t => exact ⟨nodupKeys_eraseK _ _ hg.1, hg.2.1, hg.2.2⟩

theorem goodState_runEvents (T : Nat) (evs : List Event) (s : ChanState)
    (hg : GoodState s) : GoodState (runEvents T evs s) := by
  induction evs generalizing s with
  | nil => exact hg
  | cons e rest ih =>
    exact ih _ (goodState_step T s e hg)

theorem reachable_goodState (T : Nat) (s : ChanState) (h : Reachable T s) :
    GoodState s := by
  rcases h with ⟨cbs, evs, hrun⟩
  rw [← hrun]
  exact goodState_runEvents T evs _ (goodState_initChan cbs)

theorem mem_keys_of_lookupK_some {K V : Type} [DecidableEq K]
    (l : List (K × V)) (a : K) (v : V) (h : lookupK l a = some v) :
    a ∈ l.map Prod.fst := by
  induction l with
  | nil => simp [lookupK] at h
  | cons kv rest ih =>
    by_cases hk : kv.1 = a
    · rw [List.map_cons, hk]
      exact List.mem_cons_self _ _
    · simp [lookupK, hk] at h
      exact List.mem_cons.2 (Or.inr (ih h))

/-- The stale branch of the tick body, as one state equation. -/
theorem sendTickPeer_stale (T now : Nat) (fs : String → Option Nat)
    (io : String → Bool × Bool) (s : ChanState) (a : String) (st : SendTransfer)
    (hact : lookupK s.sendActive a = some st)
    (hstale : st.isStale T now = true) :
    sendTickPeer T now fs io s a
      = ({ s with
            transfers := eraseK s.transfers st.fileNumber,
            sendActive := eraseK s.sendActive a },
         (closeTransfer s st.fileNumber .StTimeout (io a).1 (io a).2).2) := by
  unfold sendTickPeer
  rw [hact]
  simp only [hstale, closeTransfer_state s st.fileNumber .StTimeout (io a).1 (io a).2]
  simp

/-- The non-stale branch of the tick body does nothing. -/
theorem sendTickPeer_notStale (T now : Nat) (fs : String → Option Nat)
    (io : String → Bool × Bool) (s : ChanState) (a : String) (st : SendTransfer)
    (hact : lookupK s.sendActive a = some st)
    (hstale : st.isStale T now = false) :
    sendTickPeer T now fs io s a = (s, []) := by
  unfold sendTickPeer
  rw [hact]
  simp only [hstale, Bool.false_eq_true, if_false]

/-- Processing one address in the send tick changes no other address's
admission or queue. -/
theorem sendTickPeer_frame (T now : Nat) (fs : String → Option Nat)
    (io : String → Bool × Bool) (s : ChanState) (a b : String) (hab : b ≠ a) :
    lookupK (sendTickPeer T now fs io s a).1.sendActive b = lookupK s.sendActive b
    ∧ lookupK (sendTickPeer T now fs io s a).1.sending b = lookupK s.sending b := by
  cases hsa : lookupK s.sendActive a with
  | none =>
    cases hq : lookupK s.sending a with
    | none =>
      have h : sendTickPeer T now fs io s a = (s, []) := by
        unfold sendTickPeer
        rw [hsa]
        unfold dequeueReady
        rw [hq]
      rw [h]
      exact ⟨rfl, rfl⟩
    | some q =>
      cases q with
      | nil =>
        have h : sendTickPeer T now fs io s a = (s, []) := by
          unfold sendTickPeer
          rw [hsa]
          unfold dequeueReady
          rw [hq]
        rw [h]
        exact ⟨rfl, rfl⟩
      | cons t rest =>
        have hadm := sendTickPeer_admission T now fs io s a t rest hsa hq
        cases hfs : fs a with
        | none =>
          rw [hadm.1 hfs]
          exact ⟨rfl, lookupK_insertK_ne _ _ _ _ hab⟩
        | some n =>
          rw [hadm.2 n hfs]
          exact ⟨lookupK_insertK_ne _ _ _ _ hab, lookupK_insertK_ne _ _ _ _ hab⟩
  | some st =>
    cases hstale : st.isStale T now with
    | true =>
      rw [sendTickPeer_stale T now fs io s a st hsa hstale]
      exact ⟨lookupK_eraseK_ne _ _ _ hab, rfl⟩
    | false =>
      rw [sendTickPeer_notStale T now fs io s a st hsa hstale]
      exact ⟨rfl, rfl⟩

/-- With an admission present, the tick body leaves the peer's queue alone and,
when the admission is not stale, the admission tracker entirely alone. -/
theorem sendTickPeer_active (T now : Nat) (fs : String → Option Nat)
    (io : String → Bool × Bool) (s : ChanState) (a : String) (st : SendTransfer)
    (hact : lookupK s.sendActive a = some st) :
    (sendTickPeer T now fs io s a).1.sending = s.sending
    ∧ (st.isStale T now = false →
        (sendTickPeer T now fs io s a).1.sendActive = s.sendActive) := by
  cases hstale : st.isStale T now with
  | true =>
    rw [sendTickPeer_stale T now fs io s a st hact hstale]
    exact ⟨rfl, fun h => by simp at h⟩
  | false =>
    rw [sendTickPeer_notStale T now fs io s a st hact hstale]
    exact ⟨rfl, fun _ => rfl⟩

theorem sendTickGo_frame (T now : Nat) (fs : String → Option Nat)
    (io : String → Bool × Bool) (l : List String) (s : ChanState) (b : String)
    (hb : b ∉ l) :
    lookupK (sendTickGo T now fs io l s).1.sendActive b = lookupK s.sendActive b
    ∧ lookupK (sendTickGo T now fs io l s).1.sending b = lookupK s.sending b := by
  induction l generalizing s with
  | nil => exact ⟨rfl, rfl⟩
  | cons a rest ih =>
    have hba : b ≠ a := fun h => hb (h ▸ List.mem_cons_self a rest)
    have hbrest : b ∉ rest := fun h => hb (List.mem_cons.2 (Or.inr h))
    have h1 := sendTickPeer_frame T now fs io s a b hba
    have h2 := ih (sendTickPeer T now fs io s a).1 hbrest
    exact ⟨h2.1.trans h1.1, h2.2.trans h1.2⟩

theorem sendTickGo_append (T now : Nat) (fs : String → Option Nat)
    (io : String → Bool × Bool) (l1 l2 : List String) (s : ChanState) :
    (sendTickGo T now fs io (l1 ++ l2) s).1
      = (sendTickGo T now fs io l2 (sendTickGo T now fs io l1 s).1).1 := by
  induction l1 generalizing s with
  | nil => rfl
  | cons a rest ih =>
    show (sendTickGo T now fs io (rest ++ l2) (sendTickPeer T now fs io s a).1).1 = _
    rw [ih]
    rfl

/-- If `a` has a ready-queue at all, the full send tick acts on `a` exactly as
`sendTickPeer` does from some intermediate state agreeing with `s` at `a`. -/
theorem sendTick_lookups_eq (T now : Nat) (fs : String → Option Nat)
    (io : String → Bool × Bool) (s : ChanState) (a : String)
    (hnd : NodupKeys s.sending) (hmem : a ∈ s.sending.map Prod.fst) :
    ∃ s1 : ChanState,
      lookupK s1.sendActive a = lookupK s.sendActive a
      ∧ lookupK s1.sending a = lookupK s.sending a
      ∧ lookupK (sendTick T now fs io s).1.sendActive a
          = lookupK (sendTickPeer T now fs io s1 a).1.sendActive a
      ∧ lookupK (sendTick T now fs io s).1.sending a
          = lookupK (sendTickPeer T now fs io s1 a).1.sending a := by
  rcases List.append_of_mem hmem with ⟨l1, l2, hsplit⟩
  have hnodup : (l1 ++ a :: l2).Nodup := by
    unfold NodupKeys at hnd
    rw [hsplit] at hnd
    exact hnd
  have hmid := List.nodup_middle.1 hnodup
  have ha1 : a ∉ l1 := fun h =>
    (List.nodup_cons.1 hmid).1 (List.mem_append.2 (Or.inl h))
  have ha2 : a ∉ l2 := fun h =>
    (List.nodup_cons.1 hmid).1 (List.mem_append.2 (Or.inr h))
  refine ⟨(sendTickGo T now fs io l1 s).1, ?_, ?_, ?_, ?_⟩
  · exact (sendTickGo_frame T now fs io l1 s a ha1).1
  · exact (sendTickGo_frame T now fs io l1 s a ha1).2
  · unfold sendTick
    rw [hsplit, sendTickGo_append]
    exact (sendTickGo_frame T now fs io l2 _ a ha2).1
  · unfold sendTick
    rw [hsplit, sendTickGo_append]
    exact (sendTickGo_frame T now fs io l2 _ a ha2).2

/-- Claim C1: at every reachable coordinator state, at most one outbound
transfer per peer is admitted or active (at most one `sendActive` entry per
address); a send tick initiates a new send for a peer only when the peer has
no `sendActive` entry — a peer with a (non-stale) admission keeps it and its
queue untouched — and admission dequeues exactly the queue head, leaving the
remaining queued transfers in their original FIFO order. -/
theorem one_active_send_per_peer (T : Nat) (s : ChanState)
    (hreach : Reachable T s) :
    (∀ a, countK s.sendActive a ≤ 1)
    ∧ (∀ now fs io a st, lookupK s.sendActive a = some st →
        lookupK (sendTick T now fs io s).1.sending a = lookupK s.sending a
        ∧ (st.isStale T now = false →
            lookupK (sendTick T now fs io s).1.sendActive a = some st))
    ∧ (∀ now fs io a t rest, lookupK s.sendActive a = none →
        lookupK s.sending a = some (t :: rest) →
        lookupK (sendTick T now fs io s).1.sending a = some rest
        ∧ (fs a = none →
            lookupK (sendTick T now fs io s).1.sendActive a = none)
        ∧ (∀ n, fs a = some n →
            lookupK (sendTick T now fs io s).1.sendActive a
              = some (buildSendTransfer now n))) := by
  have hg := reachable_goodState T s hreach
  refine ⟨fun a => countK_le_one _ _ hg.2.1, ?_, ?_⟩
  · intro now fs io a st hact
    by_cases hmem : a ∈ s.sending.map Prod.fst
    · rcases sendTick_lookups_eq T now fs io s a hg.2.2 hmem with
        ⟨s1, he1, he2, he3, he4⟩
      have hact1 : lookupK s1.sendActive a = some st := he1.trans hact
      have hp := sendTickPeer_active T now fs io s1 a st hact1
      constructor
      · rw [he4, hp.1, he2]
      · intro hns
        rw [he3, hp.2 hns, hact1]
    · have hfr : lookupK (sendTick T now fs io s).1.sendActive a
          = lookupK s.sendActive a
          ∧ lookupK (sendTick T now fs io s).1.sending a = lookupK s.sending a := by
        unfold sendTick
        exact sendTickGo_frame T now fs io _ s a hmem
      exact ⟨hfr.2, fun _ => hfr.1.trans hact⟩
  · intro now fs io a t rest hact hq
    have hmem : a ∈ s.sending.map Prod.fst :=
      mem_keys_of_lookupK_some s.sending a _ hq
    rcases sendTick_lookups_eq T now fs io s a hg.2.2 hmem with
      ⟨s1, he1, he2, he3, he4⟩
    have hact1 : lookupK s1.sendActive a = none := he1.trans hact
    have hq1 : lookupK s1.sending a = some (t :: rest) := he2.trans hq
    have hadm := sendTickPeer_admission T now fs io s1 a t rest hact1 hq1
    refine ⟨?_, ?_, ?_⟩
    · rcases hfs : fs a with _ | n
      · rw [he4, hadm.1 hfs]
        exact lookupK_insertK_self _ _ _
      · rw [he4, hadm.2 n hfs]
        exact lookupK_insertK_self _ _ _
    · intro hfs
      rw [he3, hadm.1 hfs]
      exact hact1
    · intro n hfs
      rw [he3, hadm.2 n hfs]
      exact lookupK_insertK_self _ _ _

theorem one_active_send_per_peer_witness :
    countK (runEvents 5
        [.enqueue "pa" (createTransfer "/a" "a" 2 9 true),
         .enqueue "pa" (createTransfer "/b" "b" 2 7 true),
         .sendTickEv 1 (fun _ => some 4) (fun _ => (true, true)),
         .sendTickEv 2 (fun _ => some 6) (fun _ => (true, true))]
        (initChan true)).sendActive "pa" ≤ 1 :=
  (one_active_send_per_peer 5
    (runEvents 5
      [.enqueue "pa" (createTransfer "/a" "a" 2 9 true),
       .enqueue "pa" (createTransfer "/b" "b" 2 7 true),
       .sendTickEv 1 (fun _ => some 4) (fun _ => (true, true)),
       .sendTickEv 2 (fun _ => some 6) (fun _ => (true, true))]
      (initChan true))
    ⟨true, _, rfl⟩).1 "pa"

/-! ## Claim C5: shutdown ordering and the stop signal

The sequential part of `Close` holds: the loop exits only by selecting the
stop case, `Close` returns from `wg.Wait()` only after that, and then kills
the engine and closes every remaining registered transfer as canceled exactly
once. The priority part does not: Go's `select` chooses uniformly at random
among ready cases, so a due ticker may be selected even while the stop signal
is pending.
-/

/-- Claim C5 counterexample: with the stop signal pending, the trace that
first processes an iterate tick and only then the stop signal is a possible
behaviour of the loop's `select` (no case has priority), refuting "observes
the stop signal with priority over any further poll/bootstrap/admission
tick". -/
theorem stop_signal_no_priority :
    LoopTrace true [.iterate, .stop]
    ∧ [LoopCase.iterate, LoopCase.stop] ≠ [LoopCase.stop] :=
  ⟨.tick true .iterate (by decide) [.stop] .exit, by decide⟩

/-- A loop trace always ends by selecting the stop case: the loop exits in no
other way. -/
theorem loopTrace_ends_with_stop (p : Bool) (tr : List LoopCase)
    (h : LoopTrace p tr) : ∃ pre, tr = pre ++ [.stop] := by
  induction h with
  | exit => exact ⟨[], rfl⟩
  | tick pending c hne rest hr ih =>
    rcases ih with ⟨pre, hpre⟩
    exact ⟨c :: pre, by rw [hpre]; rfl⟩

/-- Claim C5 (amended): the loop terminates only by selecting the stop case —
but without priority over simultaneously ready ticks — and after the loop has
been joined, `Close` first releases the tox engine and then closes every
remaining registered transfer with terminal state `Canceled` exactly once,
flushing and releasing each file handle once, with no effect following. -/
theorem channelCloseGo_effects (io : Nat → Bool × Bool)
    (l : List (Nat × Transfer)) (hnd : ∀ kt ∈ l, kt.2.isDone = false) :
    (channelCloseGo io l).2
      = l.flatMap (fun kt => [.fileSync kt.2.path (io kt.1).1,
            .fileClose kt.2.path (io kt.1).2]
          ++ (if kt.2.hasCallback then [.callback kt.2.path .StCanceled] else [])) := by
  induction l with
  | nil => simp [channelCloseGo]
  | cons kt rest ih =>
    have hd : kt.2.isDone = false := hnd kt (List.mem_cons_self _ _)
    have hrest : ∀ kt' ∈ rest, kt'.2.isDone = false := fun kt' h =>
      hnd kt' (List.mem_cons.2 (Or.inr h))
    show (kt.2.close .StCanceled (io kt.1).1 (io kt.1).2).2
        ++ (channelCloseGo io rest).2 = _
    rw [ih hrest, List.flatMap_cons]
    unfold Transfer.close
    simp [hd]

theorem channelCloseGo_entries (io : Nat → Bool × Bool)
    (l : List (Nat × Transfer)) (hnd : ∀ kt ∈ l, kt.2.isDone = false) :
    (channelCloseGo io l).1
      = l.map (fun kt => (kt.1, { kt.2 with isDone := true })) := by
  induction l with
  | nil => simp [channelCloseGo]
  | cons kt rest ih =>
    have hd : kt.2.isDone = false := hnd kt (List.mem_cons_self _ _)
    have hrest : ∀ kt' ∈ rest, kt'.2.isDone = false := fun kt' h =>
      hnd kt' (List.mem_cons.2 (Or.inr h))
    show (kt.1, (kt.2.close .StCanceled (io kt.1).1 (io kt.1).2).1)
        :: (channelCloseGo io rest).1 = _
    rw [ih hrest, List.map_cons]
    unfold Transfer.close
    simp [hd]

theorem channel_close_cancels_all (s : ChanState) (io : Nat → Bool × Bool)
    (hnd : ∀ kt ∈ s.transfers, kt.2.isDone = false) :
    (∀ tr, LoopTrace true tr → ∃ pre, tr = pre ++ [.stop])
    ∧ (channelClose s io).2
        = .killTox :: s.transfers.flatMap
            (fun kt => [.fileSync kt.2.path (io kt.1).1,
                        .fileClose kt.2.path (io kt.1).2]
              ++ (if kt.2.hasCallback then [.callback kt.2.path .StCanceled] else []))
    ∧ (channelClose s io).1.transfers
        = s.transfers.map (fun kt => (kt.1, { kt.2 with isDone := true })) := by
  refine ⟨fun tr h => loopTrace_ends_with_stop true tr h, ?_, ?_⟩
  · show Effect.killTox :: (channelCloseGo io s.transfers).2 = _
    rw [channelCloseGo_effects io s.transfers hnd]
  · show (channelCloseGo io s.transfers).1 = _
    rw [channelCloseGo_entries io s.transfers hnd]

theorem channel_close_cancels_all_witness :
    (channelClose
        { transfers := [(4, createTransfer "/x" "x" 1 10 true)],
          sendActive := [], sending := [], cbs := true }
        (fun _ => (true, true))).2
      = [Effect.killTox, .fileSync "/x" true, .fileClose "/x" true,
         .callback "/x" .StCanceled] := by
  have h := (channel_close_cancels_all
    { transfers := [(4, createTransfer "/x" "x" 1 10 true)],
      sendActive := [], sending := [], cbs := true }
    (fun _ => (true, true))
    (by intro kt h; simp at h; rw [h]; rfl)).2.1
  rw [h]
  decide

end TinzeniteChannel
